import Mathlib

/-!
Verification development for the 2D-ellipsometer extraction scripts.

The repository has two Python source files; the class variant
(`extract_pdfdata-checkpoint.py`, class `EllipMap`) is the complete one and is
the authority here.  We shallowly embed:

* the missing-thickness repair performed in `EllipMap.__init__` via
  `np.interp` over array-index positions (rationals stand in for the
  floating-point values, so the arithmetic is exact);
* the regex-driven text extraction (`re.search` / `re.findall` with the
  patterns `patt_stddev`, `patt_mean`, `patt_rad`, `patt_theta`,
  `patt_thick`), modelled as character-list scanners that mirror the
  leftmost-match / greedy-`\s*` / lazy-capture semantics of the Python `re`
  module on these particular patterns;
* `EllipMap.interp_grid` over the real numbers, with the
  `scipy.interpolate.RBFInterpolator` fit treated as an abstract function
  parameter (scipy is an external library), and the cubic
  radial-basis-function fit itself modelled separately, idealised over ℝ.
-/

/- ## Character helpers -/

/-- Whitespace in the sense of the Python regex class `\s`
(space, tab, newline, carriage return, vertical tab, form feed). -/
def isSpaceChar (c : Char) : Bool :=
  c = ' ' || c = '\t' || c = '\n' || c = '\r' || c = '\x0b' || c = '\x0c'

/-- Decimal digit test. -/
def isDigitChar (c : Char) : Bool :=
  '0' ≤ c && c ≤ '9'

/-- Does `needle` occur at the very start of `hay`?  (Literal-text matching as
used when a regex tries a literal alternative at a position.) -/
def leadsWith : List Char → List Char → Bool
  | [], _ => true
  | _ :: _, [] => false
  | a :: as, b :: bs => (a = b) && leadsWith as bs

/-- Does `needle` occur anywhere inside `hay`? -/
def containsSub (needle : List Char) : List Char → Bool
  | [] => leadsWith needle []
  | c :: rest => leadsWith needle (c :: rest) || containsSub needle rest

/- ## Missing-value repair (`EllipMap.__init__`, lines 109-114)

The Python code builds `mask = np.isnan(thick_arr)` and assigns
`thick_arr[mask] = np.interp(np.flatnonzero(mask), np.flatnonzero(~mask),
thick_arr[~mask])`.  A thickness series is a `List (Option ℚ)`:
`none` is a NaN (missing) entry.  `validPairs` is the list of
`(index, value)` pairs of the valid entries, i.e. the pair of arrays
`np.flatnonzero(~mask)` / `thick_arr[~mask]` that `np.interp` receives. -/

/-- Valid `(index, value)` pairs of a series, indices counted from `k`. -/
def validPairsFrom (k : ℕ) : List (Option ℚ) → List (ℚ × ℚ)
  | [] => []
  | none :: t => validPairsFrom (k + 1) t
  | some v :: t => ((k : ℚ), v) :: validPairsFrom (k + 1) t

/-- Valid `(index, value)` pairs of a series. -/
def validPairs (s : List (Option ℚ)) : List (ℚ × ℚ) :=
  validPairsFrom 0 s

/-- Piecewise-linear interpolation through the nodes `p :: ps`
(assumed sorted by first component), clamped to the end values outside the
node range: the semantics of `np.interp` at a single query point `x`. -/
def interpPts (x : ℚ) : ℚ × ℚ → List (ℚ × ℚ) → ℚ
  | (_, f0), [] =>
      -- a single sample point: np.interp returns its value everywhere
      f0
  | (x0, f0), (x1, f1) :: rest =>
      if x ≤ x0 then f0
      else if x ≤ x1 then f0 + (f1 - f0) * (x - x0) / (x1 - x0)
      else interpPts x (x1, f1) rest

/-- `np.interp x xp fp` where `vp` zips `xp` with `fp`; `np.interp` raises on
an empty `xp`, a case the callers below rule out, so `0` is a junk value. -/
def npInterpVP (x : ℚ) : List (ℚ × ℚ) → ℚ
  | [] => 0
  | p :: ps => interpPts x p ps

/-- Walk the series, keeping valid entries, replacing each missing entry at
absolute position `k` by the interpolated value `npInterpVP k vp`. -/
def repairFrom (vp : List (ℚ × ℚ)) (k : ℕ) : List (Option ℚ) → List ℚ
  | [] => []
  | some v :: t => v :: repairFrom vp (k + 1) t
  | none :: t => npInterpVP (k : ℚ) vp :: repairFrom vp (k + 1) t

/-- Missing-value repair of `EllipMap.__init__`: valid entries are kept,
missing entries are filled by `np.interp` of the valid `(index, value)`
pairs.  `none` models the `ValueError` that `np.interp` raises when the
series has no valid entry at all. -/
def repairMissing (s : List (Option ℚ)) : Option (List ℚ) :=
  match validPairs s with
  | [] => none
  | _ :: _ => some (repairFrom (validPairs s) 0 s)

/- ## Spec-side description of the repair (spec §4.1 `repairMissing`) -/

/-- Modelled from the spec's words: the nearest valid neighbour strictly to
the left of index `x` — the last sorted valid pair with index below `x`. -/
def nbLeft (x : ℚ) (vp : List (ℚ × ℚ)) : Option (ℚ × ℚ) :=
  (vp.filter (fun q => q.1 < x)).getLast?

/-- Modelled from the spec's words: the nearest valid neighbour strictly to
the right of index `x` — the first sorted valid pair with index above `x`. -/
def nbRight (x : ℚ) (vp : List (ℚ × ℚ)) : Option (ℚ × ℚ) :=
  (vp.filter (fun q => x < q.1)).head?

/-- Modelled from the spec's words: linear interpolation of the nearest valid
neighbours on either side against index positions, with flat extrapolation
(the nearest valid neighbour's value) when one side has no neighbour. -/
def specInterp (x : ℚ) (vp : List (ℚ × ℚ)) : ℚ :=
  match nbLeft x vp, nbRight x vp with
  | some l, some r => l.2 + (r.2 - l.2) * (x - l.1) / (r.1 - l.1)
  | none, some r => r.2
  | some l, none => l.2
  | none, none => 0

/- ## Lemmas about the repair -/

lemma getLast?_cons_of_ne_nil {α : Type} (a : α) {l : List α} (h : l ≠ []) :
    (a :: l).getLast? = l.getLast? := by
  cases l with
  | nil => exact absurd rfl h
  | cons b t => rfl

lemma validPairsFrom_lb :
    ∀ (s : List (Option ℚ)) (k : ℕ), ∀ q ∈ validPairsFrom k s, (k : ℚ) ≤ q.1 := by
  intro s
  induction s with
  | nil =>
    intro k q hq
    simp [validPairsFrom] at hq
  | cons o t ih =>
    intro k q hq
    cases o with
    | none =>
      have h1 := ih (k + 1) q (by simpa [validPairsFrom] using hq)
      have h2 : ((k : ℚ)) ≤ ((k + 1 : ℕ) : ℚ) := by push_cast; linarith
      linarith
    | some v =>
      rcases (by simpa [validPairsFrom] using hq :
          q = ((k : ℚ), v) ∨ q ∈ validPairsFrom (k + 1) t) with h | h
      · simp [h]
      · have h1 := ih (k + 1) q h
        have h2 : ((k : ℚ)) ≤ ((k + 1 : ℕ) : ℚ) := by push_cast; linarith
        linarith

lemma validPairsFrom_sorted :
    ∀ (s : List (Option ℚ)) (k : ℕ),
      List.Pairwise (fun a b : ℚ × ℚ => a.1 < b.1) (validPairsFrom k s) := by
  intro s
  induction s with
  | nil => intro k; simp [validPairsFrom]
  | cons o t ih =>
    intro k
    cases o with
    | none => simpa [validPairsFrom] using ih (k + 1)
    | some v =>
      refine List.pairwise_cons.mpr ⟨?_, ih (k + 1)⟩
      intro q hq
      have h1 := validPairsFrom_lb t (k + 1) q hq
      have h2 : ((k : ℚ)) < ((k + 1 : ℕ) : ℚ) := by push_cast; linarith
      simpa using lt_of_lt_of_le h2 h1

lemma validPairsFrom_ne_idx :
    ∀ (s : List (Option ℚ)) (k i : ℕ), s.get? i = some none →
      ∀ q ∈ validPairsFrom k s, q.1 ≠ ((k + i : ℕ) : ℚ) := by
  intro s
  induction s with
  | nil =>
    intro k i h
    simp at h
  | cons o t ih =>
    intro k i h q hq
    cases o with
    | none =>
      cases i with
      | zero =>
        have hlb := validPairsFrom_lb t (k + 1) q (by simpa [validPairsFrom] using hq)
        intro heq
        rw [heq] at hlb
        have : ((k + 1 : ℕ) : ℚ) ≤ ((k + 0 : ℕ) : ℚ) := hlb
        push_cast at this
        linarith
      | succ j =>
        have hne := ih (k + 1) j (by simpa using h) q (by simpa [validPairsFrom] using hq)
        intro heq
        apply hne
        rw [heq]
        norm_cast
        omega
    | some v =>
      cases i with
      | zero => simp at h
      | succ j =>
        rcases (by simpa [validPairsFrom] using hq :
            q = ((k : ℚ), v) ∨ q ∈ validPairsFrom (k + 1) t) with hcase | hcase
        · intro heq
          rw [hcase] at heq
          have : (k : ℚ) = ((k + (j + 1) : ℕ) : ℚ) := heq
          norm_cast at this
          omega
        · have hne := ih (k + 1) j (by simpa using h) q hcase
          intro heq
          apply hne
          rw [heq]
          norm_cast
          omega

lemma validPairsFrom_ne_nil_of_mem :
    ∀ (s : List (Option ℚ)) (k : ℕ) (v : ℚ), some v ∈ s → validPairsFrom k s ≠ [] := by
  intro s
  induction s with
  | nil =>
    intro k v hv
    simp at hv
  | cons o t ih =>
    intro k v hv
    cases o with
    | none =>
      have : some v ∈ t := by
        rcases List.mem_cons.mp hv with h | h
        · exact absurd h (by simp)
        · exact h
      simpa [validPairsFrom] using ih (k + 1) v this
    | some w => simp [validPairsFrom]

lemma repairFrom_length (vp : List (ℚ × ℚ)) :
    ∀ (t : List (Option ℚ)) (k : ℕ), (repairFrom vp k t).length = t.length := by
  intro t
  induction t with
  | nil => intro k; simp [repairFrom]
  | cons o t ih =>
    intro k
    cases o with
    | none => simpa [repairFrom] using ih (k + 1)
    | some v => simpa [repairFrom] using ih (k + 1)

lemma repairFrom_get (vp : List (ℚ × ℚ)) :
    ∀ (t : List (Option ℚ)) (k n : ℕ),
      (repairFrom vp k t).get? n =
        (t.get? n).map (fun o => o.getD (npInterpVP ((k + n : ℕ) : ℚ) vp)) := by
  intro t
  induction t with
  | nil => intro k n; simp [repairFrom]
  | cons o t ih =>
    intro k n
    cases o with
    | some v =>
      cases n with
      | zero => simp [repairFrom]
      | succ m =>
        have := ih (k + 1) m
        simpa [repairFrom, Nat.add_assoc, Nat.add_comm 1 m] using this
    | none =>
      cases n with
      | zero => simp [repairFrom]
      | succ m =>
        have := ih (k + 1) m
        simpa [repairFrom, Nat.add_assoc, Nat.add_comm 1 m] using this

lemma interpPts_eq_spec :
    ∀ (ps : List (ℚ × ℚ)) (p : ℚ × ℚ) (x : ℚ),
      List.Pairwise (fun a b : ℚ × ℚ => a.1 < b.1) (p :: ps) →
      (∀ q ∈ p :: ps, q.1 ≠ x) →
      interpPts x p ps = specInterp x (p :: ps) := by
  intro ps
  induction ps with
  | nil =>
    intro p x _ hne
    obtain ⟨x0, f0⟩ := p
    have hx0 : x0 ≠ x := hne (x0, f0) (by simp)
    rcases lt_or_gt_of_ne hx0 with h | h
    · -- x0 < x : the sole node lies left of x, flat extrapolation right
      simp [interpPts, specInterp, nbLeft, nbRight, List.filter_cons, h, not_lt.mpr (le_of_lt h)]
    · -- x < x0 : flat extrapolation left
      simp [interpPts, specInterp, nbLeft, nbRight, List.filter_cons, h, not_lt.mpr (le_of_lt h)]
  | cons q ps' ih =>
    intro p x hsort hne
    obtain ⟨x0, f0⟩ := p
    obtain ⟨x1, f1⟩ := q
    have hsort' := List.pairwise_cons.mp hsort
    have h01 : x0 < x1 := hsort'.1 (x1, f1) (by simp)
    have hps' : ∀ r ∈ ps', x1 < r.1 := fun r hr =>
      (List.pairwise_cons.mp hsort'.2).1 r hr
    have hx0 : x0 ≠ x := hne (x0, f0) (by simp)
    have hx1 : x1 ≠ x := hne (x1, f1) (by simp)
    rcases lt_or_gt_of_ne hx0 with h0 | h0
    · rcases lt_or_gt_of_ne hx1 with h1 | h1
      · -- x1 < x : step past the first node and use the induction hypothesis
        have hrec : interpPts x (x0, f0) ((x1, f1) :: ps') = interpPts x (x1, f1) ps' := by
          simp [interpPts, not_le.mpr h0, not_le.mpr h1]
        rw [hrec, ih (x1, f1) x hsort'.2 (fun r hr => hne r (List.mem_cons_of_mem _ hr))]
        have hmem : (x1, f1) ∈ ((x1, f1) :: ps').filter (fun r => decide (r.1 < x)) := by
          simp [List.mem_filter, h1]
        have hfne : ((x1, f1) :: ps').filter (fun r => decide (r.1 < x)) ≠ [] := by
          intro hnil
          rw [hnil] at hmem
          exact List.not_mem_nil _ hmem
        have hL : nbLeft x ((x0, f0) :: (x1, f1) :: ps') = nbLeft x ((x1, f1) :: ps') := by
          unfold nbLeft
          rw [List.filter_cons, if_pos (by simpa using h0)]
          exact getLast?_cons_of_ne_nil _ hfne
        have hR : nbRight x ((x0, f0) :: (x1, f1) :: ps') = nbRight x ((x1, f1) :: ps') := by
          unfold nbRight
          rw [List.filter_cons, if_neg (by simpa using not_lt.mpr (le_of_lt h0))]
        simp only [specInterp, hL, hR]
      · -- x0 < x < x1 : interior, linear between the bracketing nodes
        have hlhs : interpPts x (x0, f0) ((x1, f1) :: ps') =
            f0 + (f1 - f0) * (x - x0) / (x1 - x0) := by
          simp [interpPts, not_le.mpr h0, le_of_lt h1]
        have hfps' : ps'.filter (fun r => decide (r.1 < x)) = [] := by
          refine List.filter_eq_nil_iff.mpr ?_
          intro r hr
          simp only [decide_eq_true_eq]
          exact not_lt.mpr (le_of_lt (lt_trans h1 (hps' r hr)))
        simp only [specInterp, nbLeft, nbRight]
        rw [List.filter_cons, if_pos (by simpa using h0),
          List.filter_cons, if_neg (by simpa using not_lt.mpr (le_of_lt h1)), hfps',
          List.filter_cons, if_neg (by simpa using not_lt.mpr (le_of_lt h0)),
          List.filter_cons, if_pos (by simpa using h1)]
        simpa using hlhs
    · -- x < x0 : left of every node, flat extrapolation to the first value
      have hlhs : interpPts x (x0, f0) ((x1, f1) :: ps') = f0 := by
        simp [interpPts, le_of_lt h0]
      have hfnil : ((x0, f0) :: (x1, f1) :: ps').filter (fun r => decide (r.1 < x)) = [] := by
        refine List.filter_eq_nil_iff.mpr ?_
        intro r hr
        simp only [decide_eq_true_eq]
        rcases List.mem_cons.mp hr with h | h
        · rw [h]; exact not_lt.mpr (le_of_lt h0)
        · rcases List.mem_cons.mp h with h' | h'
          · rw [h']; exact not_lt.mpr (le_of_lt (lt_trans h0 h01))
          · exact not_lt.mpr (le_of_lt (lt_trans (lt_trans h0 h01) (hps' r h')))
      simp only [specInterp, nbLeft, nbRight, hfnil]
      rw [List.filter_cons, if_pos (by simpa using h0)]
      simpa using hlhs

/- ## Claim C1 and C10 theorems -/

/-- C1.  For every thickness series containing at least one valid entry,
`repairMissing` replaces each missing entry by linear interpolation of the
nearest valid neighbours against array-index positions (`specInterp`, written
from the spec's words), with flat extrapolation at the ends; the three
concrete examples repair as the spec states; and after repair no missing
value remains (the repaired series is a total list of the same length). -/
theorem repair_is_nearest_neighbor_interp :
    (∀ s : List (Option ℚ), (∃ v, some v ∈ s) →
      ∃ r, repairMissing s = some r ∧ r.length = s.length ∧
        (∀ n, s.get? n = some none → r.get? n = some (specInterp (n : ℚ) (validPairs s))) ∧
        (∀ n v, s.get? n = some (some v) → r.get? n = some v)) ∧
    repairMissing [some 10, none, some 20] = some [10, 15, 20] ∧
    repairMissing [none, some 10, some 20] = some [10, 10, 20] ∧
    repairMissing [some 10, some 20, none] = some [10, 20, 20] := by
  refine ⟨?_, ?_, ?_, ?_⟩
  · intro s hval
    obtain ⟨v, hv⟩ := hval
    have hne : validPairs s ≠ [] := validPairsFrom_ne_nil_of_mem s 0 v hv
    obtain ⟨p, ps, hvp⟩ : ∃ p ps, validPairs s = p :: ps := by
      cases h : validPairs s with
      | nil => exact absurd h hne
      | cons p ps => exact ⟨p, ps, rfl⟩
    refine ⟨repairFrom (validPairs s) 0 s, ?_, repairFrom_length _ s 0, ?_, ?_⟩
    · unfold repairMissing
      rw [hvp]
    · intro n hn
      rw [repairFrom_get (validPairs s) s 0 n, hn]
      have hsorted : List.Pairwise (fun a b : ℚ × ℚ => a.1 < b.1) (validPairs s) :=
        validPairsFrom_sorted s 0
      have hnei : ∀ q ∈ validPairs s, q.1 ≠ ((0 + n : ℕ) : ℚ) :=
        validPairsFrom_ne_idx s 0 n hn
      rw [hvp] at hsorted hnei
      simp only [Nat.zero_add] at hnei
      have heq := interpPts_eq_spec ps p (n : ℚ) hsorted hnei
      simp [hvp, npInterpVP, heq]
    · intro n w hn
      rw [repairFrom_get (validPairs s) s 0 n, hn]
      simp
  · norm_num [repairMissing, validPairs, validPairsFrom, repairFrom, npInterpVP, interpPts]
  · norm_num [repairMissing, validPairs, validPairsFrom, repairFrom, npInterpVP, interpPts]
  · norm_num [repairMissing, validPairs, validPairsFrom, repairFrom, npInterpVP, interpPts]

/-- Witness for C1: the general statement applied to the concrete series
`[10, missing, 20]`, discharging the at-least-one-valid-entry hypothesis. -/
theorem repair_is_nearest_neighbor_interp_witness :
    ∃ r, repairMissing [some 10, none, some 20] = some r ∧ r.length = 3 := by
  obtain ⟨r, h1, h2, -, -⟩ :=
    repair_is_nearest_neighbor_interp.1 [some 10, none, some 20] ⟨10, by simp⟩
  exact ⟨r, h1, by simpa using h2⟩

/-- C10.  Frame property of the repair in `EllipMap.__init__`: only masked
(missing) positions are assigned; every position holding a valid parsed value
holds the identical value after repair. -/
theorem repair_preserves_valid_entries (s : List (Option ℚ)) (i : ℕ) (v : ℚ)
    (h : s.get? i = some (some v)) :
    ∃ r, repairMissing s = some r ∧ r.get? i = some v := by
  have hv : some v ∈ s := List.get?_mem h
  have hne : validPairs s ≠ [] := validPairsFrom_ne_nil_of_mem s 0 v hv
  obtain ⟨p, ps, hvp⟩ : ∃ p ps, validPairs s = p :: ps := by
    cases hcase : validPairs s with
    | nil => exact absurd hcase hne
    | cons p ps => exact ⟨p, ps, rfl⟩
  refine ⟨repairFrom (validPairs s) 0 s, ?_, ?_⟩
  · unfold repairMissing
    rw [hvp]
  · rw [repairFrom_get (validPairs s) s 0 i, h]
    simp

/-- Witness for C10 at a concrete series: position 0 of `[5, missing]`
holds 5 both before and after repair. -/
theorem repair_preserves_valid_entries_witness :
    ∃ r, repairMissing [some 5, none] = some r ∧ r.get? 0 = some 5 :=
  repair_preserves_valid_entries [some 5, none] 0 5 (by simp)

/- ## Regex extraction (`EllipMap.__init__`, lines 80-100)

The five patterns of the source are

    patt_stddev = r"StdDev\s*(.*?)\s"
    patt_mean   = r"Mean\s*(.*?)\s"
    patt_rad    = r"R=\s*(.*?),"
    patt_theta  = r"Theta=\s*(.*?),"
    patt_thick  = r"Thick1=\s*(.*?),|No Soution"

We model `re.search` / `re.findall` on exactly these shapes: a literal label,
a greedy `\s*` run (longest first, with backtracking), a lazy `(.*?)` capture
of non-newline characters, and a one-character (`\s`) or literal (`,`)
terminator; matches are leftmost, and `findall` continues scanning after the
end of each match.  `findall` on `patt_thick` returns the capture group,
which is the empty string when the `No Soution` alternative matched — the
code then turns empty strings into NaN. -/

def stdDevChars : List Char := ("StdDev").data

def meanChars : List Char := ("Mean").data

def radKey : List Char := ("R=").data

def thetaKey : List Char := ("Theta=").data

def thickKey : List Char := ("Thick1=").data

def noSoutionChars : List Char := ("No Soution").data

def pattStdDev : String := "StdDev\\s*(.*?)\\s"

def pattMean : String := "Mean\\s*(.*?)\\s"

/-- Lazy capture `(.*?)\s`: the shortest run of non-newline characters
followed by a whitespace character.  (A newline is itself `\s`, and `.`
cannot match it, so the first whitespace character always ends the capture.) -/
def lazyCapture : List Char → Option (List Char)
  | [] => none
  | c :: rest =>
    if isSpaceChar c then some []
    else (lazyCapture rest).map (fun l => c :: l)

/-- Tail of the scalar patterns after the label: `\s*(.*?)\s` with the greedy
`\s*` preferring the longest whitespace run and backtracking on failure. -/
def scalarTail : List Char → Option (List Char)
  | [] => none
  | c :: rest =>
    if isSpaceChar c then
      match scalarTail rest with
      | some cap => some cap
      | none => lazyCapture (c :: rest)
    else lazyCapture (c :: rest)

/-- Leftmost `re.search` for `"<label>\s*(.*?)\s"`, returning the capture. -/
def searchScalar (label : List Char) : List Char → Option (List Char)
  | [] => none
  | c :: rest =>
    if leadsWith label (c :: rest) then
      match scalarTail ((c :: rest).drop label.length) with
      | some cap => some cap
      | none => searchScalar label rest
    else searchScalar label rest

/-- Lazy capture `(.*?),`: the shortest run of non-newline characters up to a
comma; returns the capture and the remainder after the comma. -/
def captureToComma : List Char → Option (List Char × List Char)
  | [] => none
  | c :: rest =>
    if c = ',' then some ([], rest)
    else if c = '\n' then none
    else (captureToComma rest).map (fun cr => (c :: cr.1, cr.2))

/-- Tail of the series patterns after the key: `\s*(.*?),` with greedy `\s*`
and backtracking. -/
def fieldTail : List Char → Option (List Char × List Char)
  | [] => none
  | c :: rest =>
    if isSpaceChar c then
      match fieldTail rest with
      | some cr => some cr
      | none => captureToComma (c :: rest)
    else captureToComma (c :: rest)

/-- Scanner for the non-overlapping leftmost `re.findall` of
`"<key>\s*(.*?),"`, with an explicit step budget: each scan step either
advances one position or consumes a whole match (at least the comma), so a
budget of the text length is always enough.  The budget makes the recursion
structural, hence evaluable. -/
def findallFieldFuel (key : List Char) : ℕ → List Char → List (List Char)
  | 0, _ => []
  | _, [] => []
  | fuel + 1, c :: rest =>
    if leadsWith key (c :: rest) then
      match fieldTail ((c :: rest).drop key.length) with
      | some cr => cr.1 :: findallFieldFuel key fuel cr.2
      | none => findallFieldFuel key fuel rest
    else findallFieldFuel key fuel rest

/-- Non-overlapping leftmost `re.findall` for `"<key>\s*(.*?),"` (the
patterns `patt_rad` and `patt_theta`), returning the captures in document
order; scanning resumes after the end of each match. -/
def findallField (key : List Char) (s : List Char) : List (List Char) :=
  findallFieldFuel key s.length s

/-- Scanner for `patt_thick` with an explicit step budget, as in
`findallFieldFuel`. -/
def findallThickFuel : ℕ → List Char → List (List Char)
  | 0, _ => []
  | _, [] => []
  | fuel + 1, c :: rest =>
    if leadsWith thickKey (c :: rest) then
      match fieldTail ((c :: rest).drop thickKey.length) with
      | some cr => cr.1 :: findallThickFuel fuel cr.2
      | none =>
        if leadsWith noSoutionChars (c :: rest) then
          [] :: findallThickFuel fuel ((c :: rest).drop noSoutionChars.length)
        else findallThickFuel fuel rest
    else
      if leadsWith noSoutionChars (c :: rest) then
        [] :: findallThickFuel fuel ((c :: rest).drop noSoutionChars.length)
      else findallThickFuel fuel rest

/-- Non-overlapping leftmost `re.findall` for the alternation
`"Thick1=\s*(.*?),|No Soution"` (the pattern `patt_thick`): at each position
the first alternative is tried first; a match of the second alternative has
an unmatched capture group, which Python's `findall` reports as `''`. -/
def findallThick (s : List Char) : List (List Char) :=
  findallThickFuel s.length s

/- ## Float parsing

The captures are parsed by Python's `float` (directly, or through numpy's
`astype(float)`).  We model the common decimal forms — optional surrounding
whitespace, optional sign, digits with an optional fractional part — exactly,
over ℚ; exotic inputs accepted by Python (`"inf"`, `"nan"`, exponents,
underscores) are out of the model and no claim depends on them. -/

def digitVal (c : Char) : ℕ := c.toNat - 48

def natOfDigits (l : List Char) : ℕ := l.foldl (fun a c => 10 * a + digitVal c) 0

def stripSpaces (l : List Char) : List Char :=
  List.reverse (List.dropWhile isSpaceChar (List.reverse (List.dropWhile isSpaceChar l)))

def parseUnsigned (l : List Char) : Option ℚ :=
  match l.dropWhile isDigitChar with
  | [] =>
    if (l.takeWhile isDigitChar).isEmpty then none
    else some ((natOfDigits (l.takeWhile isDigitChar) : ℚ))
  | '.' :: frac =>
    if frac.all isDigitChar && !((l.takeWhile isDigitChar).isEmpty && frac.isEmpty) then
      some ((natOfDigits (l.takeWhile isDigitChar) : ℚ) +
        (natOfDigits frac : ℚ) / (10 : ℚ) ^ frac.length)
    else none
  | _ => none

def parseF (l : List Char) : Option ℚ :=
  match stripSpaces l with
  | '+' :: r => parseUnsigned r
  | '-' :: r => (parseUnsigned r).map (fun q => -q)
  | r => parseUnsigned r

/- ## The parse operation (`EllipMap.__init__` minus the PDF read)

Failure modes, in the order the Python statements execute them:
`noMatch p` models the `AttributeError` raised by calling `.group(1)` on a
failed `re.search` for pattern `p`; `badFloat s` models the `ValueError`
raised by `float(s)` / `astype(float)`; `emptyInterp` models the
`ValueError` raised by `np.interp` when there is no valid sample point. -/

inductive PErr where
  | noMatch (patt : String)
  | badFloat (s : List Char)
  | emptyInterp
deriving DecidableEq

/-- Parse result: the attributes `EllipMap.__init__` stores.  The angular
coordinates are stored in degrees here; the radians array the code keeps is
the derived view `ScanReport.theta_arr` below (`np.radians` multiplies by
π/180, an irrational factor, so the conversion lives on the ℝ side). -/
structure ScanReport where
  stddev : ℚ
  mean : ℚ
  rad_arr : List ℚ
  theta_deg : List ℚ
  thick_arr : List ℚ
deriving DecidableEq

/-- The stored `theta_arr`: `np.radians` of the extracted angle values. -/
noncomputable def ScanReport.theta_arr (r : ScanReport) : List ℝ :=
  r.theta_deg.map (fun q => (q : ℝ) * Real.pi / 180)

/-- Convert every capture with `float`, as `astype(float)` does, failing on
the first malformed entry. -/
def mapFloats : List (List Char) → Except PErr (List ℚ)
  | [] => .ok []
  | c :: rest =>
    match parseF c with
    | none => .error (.badFloat c)
    | some q =>
      match mapFloats rest with
      | .error e => .error e
      | .ok qs => .ok (q :: qs)

/-- Thickness captures: the code first replaces `''` entries (the unmatched
capture group of a `No Soution` match) with NaN, then converts the rest with
`astype(float, casting='unsafe')`.  A `none` is a NaN entry. -/
def mapThick : List (List Char) → Except PErr (List (Option ℚ))
  | [] => .ok []
  | c :: rest =>
    match (if c.isEmpty then some none else (parseF c).map some) with
    | none => .error (.badFloat c)
    | some o =>
      match mapThick rest with
      | .error e => .error e
      | .ok os => .ok (o :: os)

/-- The parse pipeline of `EllipMap.__init__`, in statement order: search
StdDev and convert, search Mean and convert, findall the radius, angle and
thickness series, convert each, repair the thickness series. -/
def parse (t : List Char) : Except PErr ScanReport :=
  match searchScalar stdDevChars t with
  | none => .error (.noMatch pattStdDev)
  | some sdCap =>
    match parseF sdCap with
    | none => .error (.badFloat sdCap)
    | some sd =>
      match searchScalar meanChars t with
      | none => .error (.noMatch pattMean)
      | some mCap =>
        match parseF mCap with
        | none => .error (.badFloat mCap)
        | some mn =>
          match mapFloats (findallField radKey t) with
          | .error e => .error e
          | .ok rads =>
            match mapFloats (findallField thetaKey t) with
            | .error e => .error e
            | .ok thetas =>
              match mapThick (findallThick t) with
              | .error e => .error e
              | .ok thicks =>
                match repairMissing thicks with
                | none => .error .emptyInterp
                | some thickR => .ok ⟨sd, mn, rads, thetas, thickR⟩

/- ## Lemmas about the search -/

lemma searchScalar_eq_none_of_not_sub :
    ∀ (label t : List Char), containsSub label t = false → searchScalar label t = none := by
  intro label t
  induction t with
  | nil => intro h; rfl
  | cons c rest ih =>
    intro h
    rw [containsSub] at h
    obtain ⟨h1, h2⟩ := by simpa using h
    rw [searchScalar, if_neg (by simp [h1])]
    exact ih h2

/- ## Claim C2: the missing-thickness marker -/

/-- A text whose second sample record carries the spec's marker
`No Solution`. -/
def txtNoSolution : List Char :=
  ("StdDev 1.0 Mean 2.0 R=1, Theta=0, Thick1=5, R=2, Theta=90, No Solution ").data

/-- The same text with the marker spelled `No Soution`, the literal actually
present in `patt_thick`. -/
def txtNoSoution : List Char :=
  ("StdDev 1.0 Mean 2.0 R=1, Theta=0, Thick1=5, R=2, Theta=90, No Soution ").data

/-- C2 (code bug).  The code's own comments say occurrences of
`'No Solution'` are extracted as missing thickness readings, but the regex
alternation reads `No Soution`.  On a two-sample text using the marker
`No Solution`, the thickness findall misses the marker entirely: it returns
one capture against two radius and two angle captures, and parse returns a
misaligned report (thickness series shorter than the coordinate series).
With the misspelled marker `No Soution` in the text instead, the findall
returns the empty capture for it and the series align as the claim expects. -/
theorem thickness_marker_typo_bug :
    findallThick txtNoSolution = [("5").data] ∧
    (∃ sd mn r1 r2 t1 t2 k1,
      parse txtNoSolution = Except.ok ⟨sd, mn, [r1, r2], [t1, t2], [k1]⟩) ∧
    findallThick txtNoSoution = [("5").data, []] ∧
    (∃ sd mn r1 r2 t1 t2 k1 k2,
      parse txtNoSoution = Except.ok ⟨sd, mn, [r1, r2], [t1, t2], [k1, k2]⟩) :=
  ⟨rfl, ⟨_, _, _, _, _, _, _, rfl⟩, rfl, ⟨_, _, _, _, _, _, _, _, rfl⟩⟩

/- ## Claim C3: no series-length consistency check -/

/-- A text with two `R=` records but only one `Theta=` and one `Thick1=`
record. -/
def txtLenMismatch : List Char :=
  ("StdDev 1.0 Mean 2.0 R=1, R=2, Theta=0, Thick1=5, ").data

/-- C3 counterexample.  `parse` accepts a text whose extracted radius series
has two entries while the angle and thickness series have one: it returns a
`ScanReport` (rather than failing with a `SeriesLengthMismatch`) and the
returned series lengths disagree. -/
theorem parse_no_length_check_cex :
    ∃ r, parse txtLenMismatch = Except.ok r ∧
      r.rad_arr.length = 2 ∧ r.theta_arr.length = 1 ∧ r.thick_arr.length = 1 := by
  obtain ⟨sd, mn, q1, q2, q3, q4, h⟩ :
      ∃ sd mn q1 q2 q3 q4,
        parse txtLenMismatch = Except.ok ⟨sd, mn, [q1, q2], [q3], [q4]⟩ :=
    ⟨_, _, _, _, _, _, rfl⟩
  exact ⟨_, h, by simp, by simp [ScanReport.theta_arr], by simp⟩

/-- C3 (amended).  The code performs no length-consistency validation at all:
there are input texts for which `parse` succeeds and returns a `ScanReport`
whose radius, angle and thickness series lengths disagree. -/
theorem parse_no_length_check :
    ∃ t r, parse t = Except.ok r ∧ r.rad_arr.length ≠ r.theta_arr.length := by
  obtain ⟨sd, mn, q1, q2, q3, q4, h⟩ :
      ∃ sd mn q1 q2 q3 q4,
        parse txtLenMismatch = Except.ok ⟨sd, mn, [q1, q2], [q3], [q4]⟩ :=
    ⟨_, _, _, _, _, _, rfl⟩
  exact ⟨txtLenMismatch, _, h, by simp [ScanReport.theta_arr]⟩

/- ## Claim C8: missing `Mean` label -/

/-- C8 counterexample.  The empty text does not contain the label `Mean`,
yet `parse` fails with the error of the StdDev step — the `re.search` for
`patt_stddev` runs first — not with an error naming `Mean`. -/
theorem parse_missing_mean_cex :
    containsSub meanChars [] = false ∧
    parse [] = Except.error (PErr.noMatch pattStdDev) ∧
    PErr.noMatch pattStdDev ≠ PErr.noMatch pattMean := by
  refine ⟨rfl, rfl, ?_⟩
  intro h
  exact absurd (PErr.noMatch.inj h) (by decide)

/-- C8 (amended).  For every input text in which the label `Mean` does not
occur, `parse` fails — it never returns a report.  The failure is the error
of the Mean search (the `AttributeError` of `.group(1)` on the failed
`re.search` for `patt_mean`, which names `Mean` through its pattern) exactly
when the earlier StdDev extraction succeeded; a text also missing `StdDev`
fails at the StdDev step instead. -/
theorem parse_missing_mean_fails (t : List Char)
    (hm : containsSub meanChars t = false) :
    (∃ e, parse t = Except.error e) ∧
    (∀ c q, searchScalar stdDevChars t = some c → parseF c = some q →
      parse t = Except.error (PErr.noMatch pattMean)) := by
  have hsearch : searchScalar meanChars t = none :=
    searchScalar_eq_none_of_not_sub meanChars t hm
  constructor
  · cases h1 : searchScalar stdDevChars t with
    | none => exact ⟨PErr.noMatch pattStdDev, by simp only [parse, h1]⟩
    | some c =>
      cases h2 : parseF c with
      | none => exact ⟨PErr.badFloat c, by simp only [parse, h1, h2]⟩
      | some q => exact ⟨PErr.noMatch pattMean, by simp only [parse, h1, h2, hsearch]⟩
  · intro c q h1 h2
    simp only [parse, h1, h2, hsearch]

/-- Witness for C8: on the concrete text `"StdDev 1.0 x"` (no `Mean`
anywhere, StdDev extraction succeeds), the amended theorem yields the
Mean-step error. -/
theorem parse_missing_mean_fails_witness :
    parse (("StdDev 1.0 x").data) = Except.error (PErr.noMatch pattMean) :=
  (parse_missing_mean_fails (("StdDev 1.0 x").data) (by decide)).2 _ _ rfl rfl

/- ## The spatial interpolator (`EllipMap.interp_grid`, lines 116-175)

The interpolator works on floating-point arrays through numpy and scipy; we
embed it over ℝ (exact real arithmetic).  The
`scipy.interpolate.RBFInterpolator(pairings, thick_arr, kernel='cubic')`
construction is an external library call and enters the model as the
function parameter `fit`, mapping the paired sample coordinates and values
to an evaluator; everything `interp_grid` itself does — the polar-to-
Cartesian conversion of the samples, the bounding-box mesh, the evaluation
at every node, the optional Cartesian-to-polar transform of the mesh — is
embedded directly.  `np.meshgrid(x_dense, y_dense)` yields `(P, P)` arrays
with `x_grid[i][j] = x_dense[j]` and `y_grid[i][j] = y_dense[i]`; the
ravel/stack/`rbf`/reshape sequence of the code evaluates the interpolant at
node `(x_dense[j], y_dense[i])` into `z[i][j]`. -/

/-- Python's `min` of a nonempty list (the `[]` value is junk: the code path
guards emptiness, where Python would raise a `ValueError`). -/
noncomputable def listMin : List ℝ → ℝ
  | [] => 0
  | a :: t => t.foldl min a

/-- Python's `max` of a nonempty list. -/
noncomputable def listMax : List ℝ → ℝ
  | [] => 0
  | a :: t => t.foldl max a

/-- `np.linspace a b n`: `n` evenly spaced values from `a` to `b` inclusive;
`[a]` for `n = 1`, `[]` for `n = 0`. -/
noncomputable def linspace (a b : ℝ) (n : ℕ) : List ℝ :=
  if n ≤ 1 then (List.range n).map (fun _ => a)
  else (List.range n).map (fun i : ℕ => a + (b - a) * (i : ℝ) / ((n : ℝ) - 1))

/-- `np.arctan2 y x`, the two-argument arctangent with range `(-π, π]`. -/
noncomputable def atan2 (y x : ℝ) : ℝ :=
  if 0 < x then Real.arctan (y / x)
  else if x < 0 then
    (if 0 ≤ y then Real.arctan (y / x) + Real.pi else Real.arctan (y / x) - Real.pi)
  else
    (if 0 < y then Real.pi / 2 else if y < 0 then -(Real.pi / 2) else 0)

/-- The Cartesian-to-polar node transform of the polar output branch:
`r = sqrt(x² + y²)`, `θ = atan2(y, x)`. -/
noncomputable def polarXform (p : ℝ × ℝ) : ℝ × ℝ :=
  (Real.sqrt (p.1 ^ 2 + p.2 ^ 2), atan2 p.2 p.1)

/-- The three arrays `interp_grid` returns. -/
structure Grid3 where
  grid1 : List (List ℝ)
  grid2 : List (List ℝ)
  z : List (List ℝ)

/-- Elementwise combination of two same-shaped 2D arrays (numpy elementwise
arithmetic on equal shapes). -/
def map2 (f : ℝ → ℝ → ℝ) (xs ys : List (List ℝ)) : List (List ℝ) :=
  List.zipWith (List.zipWith f) xs ys

/-- Per-sample Cartesian abscissa: `x = self.rad_arr * np.cos(self.theta_arr)`. -/
noncomputable def sampleX (rep : ScanReport) : List ℝ :=
  List.zipWith (fun r t => r * Real.cos t) (rep.rad_arr.map (fun q : ℚ => (q : ℝ)))
    rep.theta_arr

/-- Per-sample Cartesian ordinate: `y = self.rad_arr * np.sin(self.theta_arr)`. -/
noncomputable def sampleY (rep : ScanReport) : List ℝ :=
  List.zipWith (fun r t => r * Real.sin t) (rep.rad_arr.map (fun q : ℚ => (q : ℝ)))
    rep.theta_arr

/-- `EllipMap.interp_grid`.  The two error branches are the `ValueError`s
Python raises at `min` of an empty sequence and at `np.linspace` with a
negative sample count; `np.linspace` with count 0 returns an empty array. -/
noncomputable def interp_grid (fit : List (ℝ × ℝ) → List ℝ → (ℝ × ℝ) → ℝ)
    (rep : ScanReport) (polar_coords : Bool) (ptnum : ℤ) : Except String Grid3 :=
  let x := sampleX rep
  let y := sampleY rep
  let rbf := fit (x.zip y) (rep.thick_arr.map (fun q : ℚ => (q : ℝ)))
  if x.isEmpty then .error "min() arg is an empty sequence"
  else if ptnum < 0 then .error "Number of samples must be non-negative"
  else
    let xd := linspace (listMin x) (listMax x) ptnum.toNat
    let yd := linspace (listMin y) (listMax y) ptnum.toNat
    let xg := yd.map (fun _ => xd)
    let yg := yd.map (fun v => xd.map (fun _ => v))
    let z := yd.map (fun yv => xd.map (fun xv => rbf (xv, yv)))
    if polar_coords then
      .ok ⟨map2 (fun a b => Real.sqrt (a ^ 2 + b ^ 2)) xg yg,
        map2 (fun a b => atan2 b a) xg yg, z⟩
    else
      .ok ⟨xg, yg, z⟩

/-- The polar branch as a whole-grid operation: both coordinate arrays are
replaced by the nodewise `polarXform`; the value array is untouched. -/
noncomputable def polarize (g : Grid3) : Grid3 :=
  ⟨map2 (fun a b => (polarXform (a, b)).1) g.grid1 g.grid2,
    map2 (fun a b => (polarXform (a, b)).2) g.grid1 g.grid2, g.z⟩

/-- A trivial fit function for concrete instantiations. -/
noncomputable def fit0 : List (ℝ × ℝ) → List ℝ → (ℝ × ℝ) → ℝ := fun _ _ _ => 0

/-- A one-sample report for concrete instantiations. -/
def rep0 : ScanReport := ⟨1, 2, [1], [0], [3]⟩

/- ## Claim C5: the value grid does not depend on the output mode -/

/-- C5.  Interpolation happens in Cartesian space regardless of the
requested output mode: for every fit function, report and resolution, the
value grid returned with the polar flag set is identical to the value grid
returned with it clear (and the two calls fail identically when they fail);
only the coordinate arrays differ. -/
theorem interp_value_grid_mode_independent
    (fit : List (ℝ × ℝ) → List ℝ → (ℝ × ℝ) → ℝ) (rep : ScanReport) (P : ℤ) :
    (interp_grid fit rep true P).map Grid3.z = (interp_grid fit rep false P).map Grid3.z := by
  unfold interp_grid
  by_cases h1 : (sampleX rep).isEmpty
  · simp [h1]
  · by_cases h2 : P < 0
    · simp [h1, h2]
    · simp [h1, h2, Except.map, map2]

/- ## Claim C6: the polar output transform -/

/-- C6.  When polar output is requested the returned grids are exactly the
Cartesian-mode grids with every mesh node `(x, y)` replaced by
`polarXform (x, y) = (sqrt (x² + y²), atan2 y x)` in the two coordinate
arrays; `atan2` lands in `(-π, π]`; and the transform sends the node
`(1, 0)` to `(r, θ) = (1, 0)` and the node `(0, 1)` to `(1, π/2)`. -/
theorem polar_output_transform :
    (∀ (fit : List (ℝ × ℝ) → List ℝ → (ℝ × ℝ) → ℝ) (rep : ScanReport) (P : ℤ),
      interp_grid fit rep true P = (interp_grid fit rep false P).map polarize) ∧
    polarXform (1, 0) = (1, 0) ∧
    polarXform (0, 1) = (1, Real.pi / 2) ∧
    (∀ p : ℝ × ℝ, -Real.pi < (polarXform p).2 ∧ (polarXform p).2 ≤ Real.pi) := by
  refine ⟨?_, ?_, ?_, ?_⟩
  · intro fit rep P
    unfold interp_grid
    by_cases h1 : (sampleX rep).isEmpty
    · simp [h1, Except.map]
    · by_cases h2 : P < 0
      · simp [h1, h2, Except.map]
      · simp [h1, h2, Except.map, polarize, polarXform]
  · unfold polarXform atan2
    norm_num [Real.arctan_zero]
  · unfold polarXform atan2
    norm_num [Real.sqrt_one]
  · intro p
    obtain ⟨x, y⟩ := p
    simp only [polarXform]
    unfold atan2
    have hpi := Real.pi_pos
    have ha1 := Real.arctan_lt_pi_div_two (y / x)
    have ha2 := Real.neg_pi_div_two_lt_arctan (y / x)
    by_cases hx : 0 < x
    · rw [if_pos hx]
      constructor <;> linarith
    · rw [if_neg hx]
      by_cases hx' : x < 0
      · rw [if_pos hx']
        by_cases hy : 0 ≤ y
        · rw [if_pos hy]
          have hyx : y / x ≤ 0 := div_nonpos_of_nonneg_of_nonpos hy (le_of_lt hx')
          have hle : Real.arctan (y / x) ≤ 0 := by
            have hm := Real.arctan_strictMono.monotone hyx
            simpa [Real.arctan_zero] using hm
          constructor <;> linarith
        · rw [if_neg hy]
          have hyx : 0 < y / x :=
            div_pos_iff.mpr (Or.inr ⟨lt_of_not_ge hy, hx'⟩)
          have hgt : 0 < Real.arctan (y / x) := by
            have hm := Real.arctan_strictMono hyx
            simpa [Real.arctan_zero] using hm
          constructor <;> linarith
      · rw [if_neg hx']
        by_cases hy : 0 < y
        · rw [if_pos hy]
          constructor <;> linarith
        · rw [if_neg hy]
          by_cases hy' : y < 0
          · rw [if_pos hy']
            constructor <;> linarith
          · rw [if_neg hy']
            constructor <;> linarith

/- ## Lemmas about linspace -/

lemma linspace_length (a b : ℝ) (n : ℕ) : (linspace a b n).length = n := by
  unfold linspace
  split <;> simp

lemma linspace_get (a b : ℝ) (n i : ℕ) (hn : 2 ≤ n) (hi : i < n) :
    (linspace a b n).get? i = some (a + (b - a) * i / ((n : ℝ) - 1)) := by
  unfold linspace
  rw [if_neg (by omega), List.get?_map, List.get?_range hi]
  rfl

lemma linspace_first (a b : ℝ) (n : ℕ) (hn : 1 ≤ n) :
    (linspace a b n).get? 0 = some a := by
  rcases Nat.lt_or_ge n 2 with h | h
  · have hone : n = 1 := by omega
    subst hone
    rfl
  · rw [linspace_get a b n 0 h (by omega)]
    norm_num

lemma linspace_last (a b : ℝ) (n : ℕ) (hn : 2 ≤ n) :
    (linspace a b n).get? (n - 1) = some b := by
  rw [linspace_get a b n (n - 1) hn (by omega)]
  have h2 : (2 : ℝ) ≤ (n : ℝ) := by exact_mod_cast hn
  have hne : ((n : ℝ) - 1) ≠ 0 := by linarith
  have hcast : (((n - 1 : ℕ)) : ℝ) = (n : ℝ) - 1 := by
    have h1 : 1 ≤ n := by omega
    push_cast [h1]
    ring
  rw [hcast]
  congr 1
  field_simp

/- ## Claim C7: grid shape and span -/

/-- C7.  For every fit function, every report with a nonempty sample list
and every resolution `P ≥ 1`, `interp_grid` succeeds and returns three
arrays of shape `(P, P)`; the node coordinates are drawn from
`np.linspace` over the sample bounding box `[min x, max x] × [min y, max y]`
(`grid1[i][j]` is the `j`-th x-linspace entry, `grid2[i][j]` the `i`-th
y-linspace entry); and `linspace a b n` has `n` entries, starts at `a`,
ends at `b` (for `n ≥ 2`), and is linearly spaced with constant step
`(b - a)/(n - 1)`. -/
theorem grid_shape_and_span
    (fit : List (ℝ × ℝ) → List ℝ → (ℝ × ℝ) → ℝ) (rep : ScanReport) (P : ℤ)
    (hP : 1 ≤ P) (hx : (sampleX rep).isEmpty = false) :
    (∃ g, interp_grid fit rep false P = Except.ok g ∧
      (g.grid1.length : ℤ) = P ∧ (g.grid2.length : ℤ) = P ∧ (g.z.length : ℤ) = P ∧
      (∀ row ∈ g.grid1, (row.length : ℤ) = P) ∧
      (∀ row ∈ g.grid2, (row.length : ℤ) = P) ∧
      (∀ row ∈ g.z, (row.length : ℤ) = P) ∧
      (∀ row ∈ g.grid1,
        row = linspace (listMin (sampleX rep)) (listMax (sampleX rep)) P.toNat) ∧
      (∀ i j : ℕ, i < P.toNat → j < P.toNat →
        (g.grid1.get? i).bind (fun row => row.get? j) =
          (linspace (listMin (sampleX rep)) (listMax (sampleX rep)) P.toNat).get? j ∧
        (g.grid2.get? i).bind (fun row => row.get? j) =
          (linspace (listMin (sampleY rep)) (listMax (sampleY rep)) P.toNat).get? i)) ∧
    (∀ (a b : ℝ) (n : ℕ), (linspace a b n).length = n) ∧
    (∀ (a b : ℝ) (n : ℕ), 1 ≤ n → (linspace a b n).get? 0 = some a) ∧
    (∀ (a b : ℝ) (n : ℕ), 2 ≤ n → (linspace a b n).get? (n - 1) = some b) ∧
    (∀ (a b : ℝ) (n i : ℕ), 2 ≤ n → i < n →
      (linspace a b n).get? i = some (a + (b - a) * i / ((n : ℝ) - 1))) := by
  refine ⟨?_, linspace_length, linspace_first, linspace_last,
    fun a b n i hn hi => linspace_get a b n i hn hi⟩
  have hPn : ¬ P < 0 := by omega
  have hPt : (P.toNat : ℤ) = P := Int.toNat_of_nonneg (by omega)
  unfold interp_grid
  simp only [hx, Bool.false_eq_true, if_false, if_neg hPn]
  set xd := linspace (listMin (sampleX rep)) (listMax (sampleX rep)) P.toNat with hxd
  set yd := linspace (listMin (sampleY rep)) (listMax (sampleY rep)) P.toNat with hyd
  have hxdl : xd.length = P.toNat := by rw [hxd]; exact linspace_length _ _ _
  have hydl : yd.length = P.toNat := by rw [hyd]; exact linspace_length _ _ _
  refine ⟨_, rfl, ?_, ?_, ?_, ?_, ?_, ?_, ?_, ?_⟩
  · simp [hydl, hPt]
  · simp [hydl, hPt]
  · simp [hydl, hPt]
  · intro row hrow
    obtain ⟨u, hu, hr⟩ := List.mem_map.mp hrow
    rw [← hr]
    simp [hxdl, hPt]
  · intro row hrow
    obtain ⟨u, hu, hr⟩ := List.mem_map.mp hrow
    rw [← hr]
    simp [hxdl, hPt]
  · intro row hrow
    obtain ⟨u, hu, hr⟩ := List.mem_map.mp hrow
    rw [← hr]
    simp [hxdl, hPt]
  · intro row hrow
    obtain ⟨u, hu, hr⟩ := List.mem_map.mp hrow
    rw [← hr]
  · intro i j hi hj
    cases hv : yd.get? i with
    | none =>
      exfalso
      have hlen := List.get?_eq_none.mp hv
      omega
    | some v =>
      constructor
      · rw [List.get?_map, hv]
        simp
      · rw [List.get?_map, hv]
        cases hw : xd.get? j with
        | none =>
          exfalso
          have hlen := List.get?_eq_none.mp hw
          omega
        | some w =>
          simp [List.get?_map, hw, hv, List.getElem?_replicate, hxdl, hj]

/-- Witness for C7: the theorem applied to the one-sample report `rep0`
with the trivial fit at resolution 2. -/
theorem grid_shape_and_span_witness :
    ∃ g, interp_grid fit0 rep0 false 2 = Except.ok g ∧ (g.grid1.length : ℤ) = 2 := by
  obtain ⟨⟨g, h1, h2, -⟩, -⟩ := grid_shape_and_span fit0 rep0 2 (by norm_num) rfl
  exact ⟨g, h1, h2⟩

/- ## Claim C9: no resolution guard -/

/-- C9 counterexample.  At resolution `P = 0 < 1` the code does not fail:
`np.linspace(…, 0)` returns an empty array and `interp_grid` returns three
empty arrays. -/
theorem gridres_no_guard_cex :
    interp_grid fit0 rep0 false 0 = Except.ok ⟨[], [], []⟩ := rfl

/-- C9 (amended).  `interp_grid` has no resolution guard of its own: for any
report with a nonempty sample list, a negative resolution fails with the
`ValueError` that `np.linspace` raises for a negative sample count (after
the RBF fit was already constructed), while resolution 0 does not fail at
all — it returns three empty arrays. -/
theorem gridres_no_guard
    (fit : List (ℝ × ℝ) → List ℝ → (ℝ × ℝ) → ℝ) (rep : ScanReport) (b : Bool) (P : ℤ)
    (hx : (sampleX rep).isEmpty = false) :
    (P < 0 → interp_grid fit rep b P = Except.error "Number of samples must be non-negative") ∧
    (P = 0 → interp_grid fit rep b P = Except.ok ⟨[], [], []⟩) := by
  constructor
  · intro hP
    unfold interp_grid
    simp only [hx, Bool.false_eq_true, if_false, if_pos hP]
  · intro hP
    subst hP
    unfold interp_grid
    have hl : ∀ a b' : ℝ, linspace a b' (Int.toNat 0) = [] := fun a b' => rfl
    simp only [hx, Bool.false_eq_true, if_false, hl, List.map_nil]
    rw [if_neg (by omega)]
    cases b <;> simp [map2]

/-- Witness for C9: the amended theorem at the one-sample report, for
resolutions `-1` and `0`. -/
theorem gridres_no_guard_witness :
    interp_grid fit0 rep0 false (-1) =
      Except.error "Number of samples must be non-negative" ∧
    interp_grid fit0 rep0 false 0 = Except.ok ⟨[], [], []⟩ :=
  ⟨(gridres_no_guard fit0 rep0 false (-1) rfl).1 (by norm_num),
    (gridres_no_guard fit0 rep0 false 0 rfl).2 rfl⟩


/- ## Claim C4: exact interpolation at the sample points

`scipy.interpolate.RBFInterpolator(pairings, thick_arr, kernel='cubic')`
fits coefficients so that the interpolant — a weighted sum of cubic
radial-basis kernels centred at the sample points plus a degree-1 polynomial
tail — satisfies the interpolation conditions at every sample, with the
weights orthogonal to the polynomial basis.  We model that fit over ℝ
(exact arithmetic, so "within numerical tolerance" becomes exactly):
`FitsCubicRBF` is the linear system scipy solves, `rbfEvalPt` is the
evaluation of the fitted interpolant at a query point, and the theorem shows
the system forces the evaluation at each sample point to reproduce that
sample's value — exact interpolation, not smoothing. -/

/-- Euclidean distance between two sample points. -/
noncomputable def rbfDist (p q : ℝ × ℝ) : ℝ :=
  Real.sqrt ((p.1 - q.1) ^ 2 + (p.2 - q.2) ^ 2)

/-- The cubic kernel matrix `Φ(i, j) = ‖p_i - p_j‖³`. -/
noncomputable def kernelMatrix {n : ℕ} (pts : Fin n → ℝ × ℝ) : Matrix (Fin n) (Fin n) ℝ :=
  Matrix.of fun i j => rbfDist (pts i) (pts j) ^ 3

/-- The degree-1 polynomial tail matrix with rows `(1, x_i, y_i)`. -/
noncomputable def polyMat {n : ℕ} (pts : Fin n → ℝ × ℝ) : Matrix (Fin n) (Fin 3) ℝ :=
  Matrix.of fun i k => if k = 0 then 1 else if k = 1 then (pts i).1 else (pts i).2

/-- The interpolation system scipy's RBF fit solves: kernel weights `w` and
polynomial coefficients `c` reproduce the sample values, and `w` is
orthogonal to the polynomial basis. -/
def FitsCubicRBF {n : ℕ} (pts : Fin n → ℝ × ℝ) (vals w : Fin n → ℝ) (c : Fin 3 → ℝ) : Prop :=
  (kernelMatrix pts).mulVec w + (polyMat pts).mulVec c = vals ∧
    ((polyMat pts).transpose).mulVec w = 0

/-- Evaluation of the fitted interpolant at a query point `q`. -/
noncomputable def rbfEvalPt {n : ℕ} (pts : Fin n → ℝ × ℝ) (w : Fin n → ℝ) (c : Fin 3 → ℝ)
    (q : ℝ × ℝ) : ℝ :=
  (∑ j, w j * rbfDist q (pts j) ^ 3) + (c 0 + c 1 * q.1 + c 2 * q.2)

/-- C4.  Exact interpolation: whenever the fitted coefficients satisfy the
cubic-RBF interpolation system, evaluating the interpolant at sample point
`i`'s own location returns exactly `vals i`. -/
theorem rbf_exact_at_samples {n : ℕ} (pts : Fin n → ℝ × ℝ) (vals w : Fin n → ℝ)
    (c : Fin 3 → ℝ) (hfit : FitsCubicRBF pts vals w c) (i : Fin n) :
    rbfEvalPt pts w c (pts i) = vals i := by
  have hrow := congrFun hfit.1 i
  rw [← hrow]
  unfold rbfEvalPt
  simp only [Pi.add_apply, Matrix.mulVec, Matrix.dotProduct]
  congr 1
  · refine Finset.sum_congr rfl ?_
    intro j hj
    simp only [kernelMatrix, Matrix.of_apply]
    ring
  · rw [Fin.sum_univ_three]
    have h2z : ((2 : Fin 3) = 0) = False := by simp
    have h2o : ((2 : Fin 3) = 1) = False := by simp
    have h1z : ((1 : Fin 3) = 0) = False := by simp
    simp only [polyMat, Matrix.of_apply, h2z, h2o, h1z, if_true, if_false, if_pos rfl]
    ring

/-- The single sample point of the C4 witness configuration. -/
noncomputable def w4pts : Fin 1 → ℝ × ℝ := fun _ => (0, 0)

/-- The sample values of the C4 witness configuration. -/
noncomputable def w4vals : Fin 1 → ℝ := fun _ => 0

/-- The kernel weights of the C4 witness configuration. -/
noncomputable def w4w : Fin 1 → ℝ := fun _ => 0

/-- The polynomial coefficients of the C4 witness configuration. -/
noncomputable def w4c : Fin 3 → ℝ := fun _ => 0

/-- Witness for C4: a concrete one-point configuration satisfying the fit
system, at which the theorem gives exact reproduction of the value. -/
theorem rbf_exact_at_samples_witness :
    FitsCubicRBF w4pts w4vals w4w w4c ∧ rbfEvalPt w4pts w4w w4c (w4pts 0) = w4vals 0 := by
  have hfit : FitsCubicRBF w4pts w4vals w4w w4c := by
    constructor
    · funext i
      simp [Matrix.mulVec, Matrix.dotProduct, w4vals, w4w, w4c, kernelMatrix, polyMat]
    · funext k
      simp [Matrix.mulVec, Matrix.dotProduct, w4w, polyMat]
  exact ⟨hfit, rbf_exact_at_samples w4pts w4vals w4w w4c hfit 0⟩
